import Mathlib

/-!
Verification of the statistics core of `gitwrapped`, a CLI tool that parses
`git` output and aggregates commit statistics.

The development shallowly embeds the JavaScript source (`src/utils.js` and the
statistics module) into Lean:

* JavaScript strings are modelled as Lean `String`s; the string operations the
  source uses (`trim`, `split`, `join`, `parseInt`, `includes`, regular
  expression matching against the one fixed pattern of `getCommitSizeStats`)
  are implemented as structurally recursive functions over `String.data`
  (`List Char`), mirroring ECMAScript semantics for the inputs in scope
  (ASCII text produced by `git`).
* Dates are modelled as integer day numbers (days since 1970-01-01).  The
  source normalises every `Date` to midnight (`setHours(0,0,0,0)`) before any
  arithmetic and divides differences by 86 400 000 ms, so a whole-day model is
  exact; time zones are uniform (UTC) in the model.
* `execSync` results are passed in as an `Option String` argument
  (`none` = the subprocess threw / could not start).
* Fractional averages (`toFixed(2)`) are modelled by exact rational rounding;
  the claims under verification never inspect a non-zero average.
-/

/-! ## JavaScript string primitives over `List Char` -/

/-- The whitespace characters stripped by `String.prototype.trim` that can
occur in `git` output: space, tab, newline, carriage return. -/
def jsWhitespace (c : Char) : Bool :=
  c = ' ' || c = '\t' || c = '\n' || c = '\r'

/-- `trim`: drop whitespace from both ends of a character list. -/
def trimChars (l : List Char) : List Char :=
  ((l.dropWhile jsWhitespace).reverse.dropWhile jsWhitespace).reverse

/-- JavaScript `String.prototype.trim` on a Lean `String`. -/
def jsTrim (s : String) : String :=
  ⟨trimChars s.data⟩

/-- JavaScript `String.prototype.split(sep)` for a single-character separator,
on character lists.  `split` always returns at least one (possibly empty)
field. -/
def splitOnChar (sep : Char) : List Char → List (List Char)
  | [] => [[]]
  | c :: rest =>
    if c = sep then
      [] :: splitOnChar sep rest
    else
      match splitOnChar sep rest with
      | [] => [[c]]
      | g :: gs => (c :: g) :: gs

/-- JavaScript `Array.prototype.join(sep)` for character-list fields. -/
def joinChars (sep : List Char) : List (List Char) → List Char
  | [] => []
  | [x] => x
  | x :: y :: rest => x ++ sep ++ joinChars sep (y :: rest)

/-- `String.prototype.split` of a Lean `String` into Lean `String`s. -/
def jsSplit (sep : Char) (s : String) : List String :=
  (splitOnChar sep s.data).map fun l => ⟨l⟩

/-- Parse a non-empty all-digit character list as a natural number
(most significant digit first). -/
def digitsToNat (acc : Nat) : List Char → Nat
  | [] => acc
  | c :: rest => digitsToNat (acc * 10 + (c.toNat - '0'.toNat)) rest

/-- A run of decimal digits: `span isDigit`. -/
def takeDigits (l : List Char) : List Char × List Char :=
  (l.takeWhile Char.isDigit, l.dropWhile Char.isDigit)

/-- JavaScript `parseInt(s)` restricted to base 10: skip leading whitespace,
read an optional sign and then a leading run of digits; `none` models `NaN`
(no digits to read). -/
def jsParseInt (l : List Char) : Option Int :=
  let l := l.dropWhile jsWhitespace
  match l with
  | '-' :: rest =>
    let (ds, _) := takeDigits rest
    if ds = [] then none else some (-(digitsToNat 0 ds : Int))
  | '+' :: rest =>
    let (ds, _) := takeDigits rest
    if ds = [] then none else some (digitsToNat 0 ds : Int)
  | _ =>
    let (ds, _) := takeDigits l
    if ds = [] then none else some (digitsToNat 0 ds : Int)

/-- JavaScript `String.prototype.includes(needle)` on character lists. -/
def jsIncludes (needle : List Char) : List Char → Bool
  | [] => needle.isPrefixOf ([] : List Char)
  | c :: rest => needle.isPrefixOf (c :: rest) || jsIncludes needle rest

/-- Strip a literal prefix, failing if it is not present
(used to model matching a literal piece of a regular expression). -/
def stripLit : List Char → List Char → Option (List Char)
  | [], l => some l
  | _ :: _, [] => none
  | p :: ps, c :: cs => if p = c then stripLit ps cs else none

/-! ## Calendar dates as day numbers

`git log --format="%ai" | cut -d' ' -f1` yields `YYYY-MM-DD` strings; the
source turns them into `Date`s normalised to midnight.  The model converts
them to integer day numbers with the standard civil-calendar algorithms. -/

/-- Day number (days since 1970-01-01) of a proleptic-Gregorian civil date,
for years ≥ 1 (all dates `git` emits). -/
def daysFromCivil (y m d : Nat) : Int :=
  let yAdj := if m ≤ 2 then y - 1 else y
  let era := yAdj / 400
  let yoe := yAdj % 400
  let mp := if m ≤ 2 then m + 9 else m - 3
  let doy := (153 * mp + 2) / 5 + d - 1
  let doe := yoe * 365 + yoe / 4 - yoe / 100 + doy
  (era * 146097 + doe : Int) - 719468

/-- Civil date `(y, m, d)` of a day number (inverse of `daysFromCivil`),
valid for day numbers ≥ -719468 (year ≥ 0). -/
def civilFromDays (z : Int) : Nat × Nat × Nat :=
  let z' := (z + 719468).toNat
  let era := z' / 146097
  let doe := z' % 146097
  let yoe := (doe - doe / 1460 + doe / 36524 - doe / 146096) / 365
  let y := yoe + era * 400
  let doy := doe - (365 * yoe + yoe / 4 - yoe / 100)
  let mp := (5 * doy + 2) / 153
  let d := doy - (153 * mp + 2) / 5 + 1
  let m := if mp < 10 then mp + 3 else mp - 9
  (if m ≤ 2 then y + 1 else y, m, d)

/-- Decimal digits of `n`, left-padded with `'0'` to width `w`. -/
def padNat (w : Nat) (n : Nat) : List Char :=
  let ds := Nat.toDigits 10 n
  List.replicate (w - ds.length) '0' ++ ds

/-- `Date.prototype.toISOString().split("T")[0]`: the `YYYY-MM-DD` rendering
of a day number. -/
def toISODate (z : Int) : String :=
  let (y, m, d) := civilFromDays z
  ⟨padNat 4 y ++ '-' :: padNat 2 m ++ '-' :: padNat 2 d⟩

/-- `new Date(s)` for the `YYYY-MM-DD` strings produced by the `git log`
pipeline, as a day number.  Strings of any other shape are not produced by
the pipeline and are outside the model (`none`). -/
def parseDate (s : String) : Option Int :=
  match splitOnChar '-' s.data with
  | [ys, ms, ds] =>
    if ys ≠ [] && ys.all Char.isDigit && ms ≠ [] && ms.all Char.isDigit
        && ds ≠ [] && ds.all Char.isDigit then
      some (daysFromCivil (digitsToNat 0 ys) (digitsToNat 0 ms) (digitsToNat 0 ds))
    else
      none
  | _ => none

/-! ## The streak calculator (`getStreakStats`)

Source: the statistics module.  The commit-date pipeline
`git log --format="%ai" … | cut -d' ' -f1 | sort -u` produces one
`YYYY-MM-DD` line per day; the JS code splits on newlines, drops blank
lines, parses each date, sorts ascending, and then runs two scans. -/

/-- The record returned by `getStreakStats`. -/
structure StreakStats where
  currentStreak : Nat
  longestStreak : Nat
  longestStreakStart : Option String
  longestStreakEnd : Option String
  totalActiveDays : Nat
  streakMilestones : List String
deriving Repr, DecidableEq

/-- The all-zero record returned when there are no commits. -/
def emptyStreakStats : StreakStats :=
  { currentStreak := 0
    longestStreak := 0
    longestStreakStart := none
    longestStreakEnd := none
    totalActiveDays := 0
    streakMilestones := [] }

/-- The backward walk computing the current streak: `checkDate` starts at the
most recent commit day and the list holds the remaining commit days in
descending order (`commitDates[n-2] … commitDates[0]`).  A gap of exactly one
day extends the streak and moves `checkDate`; a gap of more than one day
stops; a zero gap (same day) is skipped without moving `checkDate`. -/
def currentScan (checkDate : Int) (streak : Nat) : List Int → Nat
  | [] => streak
  | prevDate :: rest =>
    if checkDate - prevDate = 1 then currentScan prevDate (streak + 1) rest
    else if checkDate - prevDate > 1 then streak
    else currentScan checkDate streak rest

/-- Mutable state of the forward longest-streak scan. -/
structure LongestState where
  longestStreak : Nat
  longestStreakStart : Int
  longestStreakEnd : Int
  tempStreak : Nat
  tempStreakStart : Int
deriving Repr, DecidableEq

/-- The forward scan of the longest-streak computation: `prevDate` is
`commitDates[i-1]` and the list holds `commitDates[i] …`.  A one-day gap
extends the running streak, a zero-day gap is skipped, and a larger gap
closes the running streak (recording it if it beats the best so far) and
starts a new streak of length 1 at the current day. -/
def longestScan (prevDate : Int) (st : LongestState) : List Int → LongestState
  | [] => st
  | currDate :: rest =>
    if currDate - prevDate = 1 then
      longestScan currDate { st with tempStreak := st.tempStreak + 1 } rest
    else if currDate - prevDate = 0 then
      longestScan currDate st rest
    else
      longestScan currDate
        { longestStreak :=
            if st.tempStreak > st.longestStreak then st.tempStreak else st.longestStreak
          longestStreakStart :=
            if st.tempStreak > st.longestStreak then st.tempStreakStart
            else st.longestStreakStart
          longestStreakEnd :=
            if st.tempStreak > st.longestStreak then prevDate else st.longestStreakEnd
          tempStreak := 1
          tempStreakStart := currDate } rest

/-- The milestone ladder appended after the scans:
`>= 7 → "Week Warrior"`, `>= 30 → "Month Master"`,
`>= 100 → "Century Club"`, `>= 365 → "Year Legend"`. -/
def streakMilestones (longestStreak : Nat) : List String :=
  (if longestStreak ≥ 7 then ["Week Warrior"] else []) ++
  (if longestStreak ≥ 30 then ["Month Master"] else []) ++
  (if longestStreak ≥ 100 then ["Century Club"] else []) ++
  (if longestStreak ≥ 365 then ["Year Legend"] else [])

/-- The parsed, ascending-sorted commit-day list built from the command
output: split on newlines, drop blank lines, parse each date, sort by
`(a, b) => a - b`. -/
def sortedDatesOf (out : String) : List Int :=
  (((jsSplit '\n' out).filter fun d => jsTrim d ≠ "").filterMap parseDate).insertionSort (· ≤ ·)

/-- The commit-day list `getStreakStats` scans, for a given command result
(`none`/empty ⇒ no days). -/
def parsedDates : Option String → List Int
  | none => []
  | some out => sortedDatesOf out

/-- Core of `getStreakStats` on the sorted commit-day list. -/
def streakFromSorted (commitDates : List Int) (today : Int) : StreakStats :=
  match commitDates with
  | [] => emptyStreakStats
  | d0 :: rest =>
    let lastCommitDate := (d0 :: rest).getLast (List.cons_ne_nil d0 rest)
    let daysSinceLastCommit := today - lastCommitDate
    let currentStreak :=
      if daysSinceLastCommit ≤ 1 then
        currentScan lastCommitDate 1 ((d0 :: rest).dropLast.reverse)
      else 0
    let stF := longestScan d0
      { longestStreak := 1
        longestStreakStart := d0
        longestStreakEnd := d0
        tempStreak := 1
        tempStreakStart := d0 } rest
    let longestStreak :=
      if stF.tempStreak > stF.longestStreak then stF.tempStreak else stF.longestStreak
    let longestStreakStart :=
      if stF.tempStreak > stF.longestStreak then stF.tempStreakStart
      else stF.longestStreakStart
    let longestStreakEnd :=
      if stF.tempStreak > stF.longestStreak then lastCommitDate else stF.longestStreakEnd
    { currentStreak := currentStreak
      longestStreak := longestStreak
      longestStreakStart := some (toISODate longestStreakStart)
      longestStreakEnd := some (toISODate longestStreakEnd)
      totalActiveDays := (d0 :: rest).length
      streakMilestones := streakMilestones longestStreak }

/-- `getStreakStats`: `output` is the result of the commit-date command
(`none` models a failed command), `today` is the current day number
(`new Date()` at midnight).  A falsy (`null` or empty) output yields the
all-zero record; otherwise the two scans run on the sorted day list. -/
def getStreakStats (output : Option String) (today : Int) : StreakStats :=
  match output with
  | none => emptyStreakStats
  | some out =>
    if out = "" then emptyStreakStats
    else streakFromSorted (sortedDatesOf out) today

/-! ## `formatDuration` (`src/utils.js`)

Timestamps are milliseconds (JS `Date` subtraction).  `Math.floor` of a
quotient is `Int.fdiv`; the JS `%` operator truncates toward zero
(`Int.tmod`). -/

/-- One formatted component: `` `${n} unit${n > 1 ? "s" : ""}` ``. -/
def durationPart (n : Int) (unit : String) : String :=
  toString n ++ unit ++ (if n > 1 then "s" else "")

/-- The body of `formatDuration` on the millisecond difference
`endDate - startDate`.  Note the moduli used by the source: each component
below `years` is `Math.floor((totalMillis % biggerUnit) / unit)` where
`biggerUnit` is the size of the next-larger unit, taken of `totalMillis`
itself (not of the remainder left by the larger components). -/
def formatDurationMs (totalMillis : Int) : String :=
  let second : Int := 1000
  let minute : Int := second * 60
  let hour : Int := minute * 60
  let day : Int := hour * 24
  let week : Int := day * 7
  let month : Int := day * 30
  let year : Int := day * 365
  let years := Int.fdiv totalMillis year
  let months := Int.fdiv (Int.tmod totalMillis year) month
  let weeks := Int.fdiv (Int.tmod totalMillis month) week
  let days := Int.fdiv (Int.tmod totalMillis week) day
  let hours := Int.fdiv (Int.tmod totalMillis day) hour
  let minutes := Int.fdiv (Int.tmod totalMillis hour) minute
  let seconds := Int.fdiv (Int.tmod totalMillis minute) second
  let parts :=
    (if years ≠ 0 then [durationPart years " year"] else []) ++
    (if months ≠ 0 then [durationPart months " month"] else []) ++
    (if weeks ≠ 0 then [durationPart weeks " week"] else []) ++
    (if days ≠ 0 then [durationPart days " day"] else []) ++
    (if hours ≠ 0 then [durationPart hours " hour"] else []) ++
    (if minutes ≠ 0 then [durationPart minutes " minute"] else []) ++
    (if seconds ≠ 0 then [durationPart seconds " second"] else [])
  let joined := String.intercalate ", " parts
  if joined = "" then "0 seconds" else joined

/-- `formatDuration(startDate, endDate)`: timestamps in milliseconds. -/
def formatDuration (startDate endDate : Int) : String :=
  formatDurationMs (endDate - startDate)

/-- The millisecond-exact nested-remainder decomposition the specification
describes: each unit is carved out of the remainder left by all larger
units, largest first (year 365 d, month 30 d, week 7 d, day, hour, minute,
second).  Written from the specification's words, to be compared with
`formatDurationMs`, which is written from the source. -/
def specNestedUnits (totalMillis : Int) : List Int :=
  let second : Int := 1000
  let minute : Int := second * 60
  let hour : Int := minute * 60
  let day : Int := hour * 24
  let week : Int := day * 7
  let month : Int := day * 30
  let year : Int := day * 365
  let years := Int.fdiv totalMillis year
  let r1 := totalMillis - years * year
  let months := Int.fdiv r1 month
  let r2 := r1 - months * month
  let weeks := Int.fdiv r2 week
  let r3 := r2 - weeks * week
  let days := Int.fdiv r3 day
  let r4 := r3 - days * day
  let hours := Int.fdiv r4 hour
  let r5 := r4 - hours * hour
  let minutes := Int.fdiv r5 minute
  let r6 := r5 - minutes * minute
  let seconds := Int.fdiv r6 second
  [years, months, weeks, days, hours, minutes, seconds]

/-- The unit values `formatDurationMs` actually renders, in the same order,
for comparison with `specNestedUnits`. -/
def codeUnits (totalMillis : Int) : List Int :=
  let second : Int := 1000
  let minute : Int := second * 60
  let hour : Int := minute * 60
  let day : Int := hour * 24
  let week : Int := day * 7
  let month : Int := day * 30
  let year : Int := day * 365
  [Int.fdiv totalMillis year,
   Int.fdiv (Int.tmod totalMillis year) month,
   Int.fdiv (Int.tmod totalMillis month) week,
   Int.fdiv (Int.tmod totalMillis week) day,
   Int.fdiv (Int.tmod totalMillis day) hour,
   Int.fdiv (Int.tmod totalMillis hour) minute,
   Int.fdiv (Int.tmod totalMillis minute) second]

/-! ## The command runner (`execCommand`, `src/utils.js`) -/

/-- Observable outcome of a call to `execCommand`: either an exception
escapes the function (`raised`) or it returns a value (`returned`;
`returned none` is the `null` sentinel). -/
inductive ExecResult where
  | raised : ExecResult
  | returned : Option String → ExecResult
deriving Repr, DecidableEq

/-- `execCommand(command, verbose)`.  `raw` is the outcome of
`execSync(command).toString()` (`none` = the subprocess exited non-zero or
could not start, making `execSync` throw).  The entire body runs inside
`try { … } catch (error) { …logging…; return null; }`: the trimmed output is
returned, an empty trimmed output raises `"No output returned."` which the
`catch` turns into `null`, and a subprocess failure is caught the same way.
`verbose` only controls `console` logging and never affects the result. -/
def execCommand (raw : Option String) (verbose : Bool) : ExecResult :=
  match raw with
  | none => ExecResult.returned none
  | some s =>
    let result := jsTrim s
    if result = "" then ExecResult.returned none
    else ExecResult.returned (some result)

/-! ## `getContributorStats` -/

/-- One parsed `git shortlog -sn` line. -/
structure Contributor where
  name : String
  commits : Option Int
deriving Repr, DecidableEq

/-- Parsing of one shortlog line:
`const [commits, ...nameParts] = line.trim().split("\t")` followed by
`{ name: nameParts.join("\t"), commits: parseInt(commits) }`. -/
def parseContributorLine (line : String) : Contributor :=
  match splitOnChar '\t' (trimChars line.data) with
  | [] => { name := "", commits := none }
  | commits :: nameParts =>
    { name := ⟨joinChars ['\t'] nameParts⟩, commits := jsParseInt commits }

/-- `getContributorStats`: split the shortlog output into lines, drop blank
lines, parse each line. -/
def getContributorStats (output : Option String) : List Contributor :=
  match output with
  | none => []
  | some out =>
    if out = "" then []
    else ((jsSplit '\n' out).filter fun line => jsTrim line ≠ "").map parseContributorLine

/-! ## `getCommitSizeStats` -/

/-- Groups captured from one `--stat` summary line by the pattern
`/(\d+) files? changed(?:, (\d+) insertions?\(\+\))?(?:, (\d+) deletions?\(-\))?/`
(absent groups already defaulted to `0`, as `parseInt(matches[i] || 0)`
does). -/
structure CommitSize where
  filesChanged : Nat
  insertions : Nat
  deletions : Nat
deriving Repr, DecidableEq

/-- Matching of one optional group `(?:, (\d+) <word>s?\(<sign>\))?` at the
current position: on success the captured number and the rest of the input,
on failure `0` with the input unconsumed. -/
def matchOptGroup (word : List Char) (sign : Char) (l : List Char) : Nat × List Char :=
  match stripLit [',', ' '] l with
  | none => (0, l)
  | some r1 =>
    let (ds, r2) := takeDigits r1
    if ds = [] then (0, l)
    else
      match stripLit (' ' :: word) r2 with
      | none => (0, l)
      | some r3 =>
        let r4 := match r3 with
          | 's' :: rest => rest
          | _ => r3
        match stripLit ['(', sign, ')'] r4 with
        | none => (0, l)
        | some r5 => (digitsToNat 0 ds, r5)

/-- Matching of the whole commit-size pattern anchored at the current
position: a digit run, ` file`, an optional `s`, ` changed`, then the two
optional groups. -/
def matchCommitSizeAt (l : List Char) : Option CommitSize :=
  let (ds, r1) := takeDigits l
  if ds = [] then none
  else
    match stripLit [' ', 'f', 'i', 'l', 'e'] r1 with
    | none => none
    | some r2 =>
      let r3 := match r2 with
        | 's' :: rest => rest
        | _ => r2
      match stripLit [' ', 'c', 'h', 'a', 'n', 'g', 'e', 'd'] r3 with
      | none => none
      | some r4 =>
        let (ins, r5) := matchOptGroup ['i', 'n', 's', 'e', 'r', 't', 'i', 'o', 'n'] '+' r4
        let (del, _) := matchOptGroup ['d', 'e', 'l', 'e', 't', 'i', 'o', 'n'] '-' r5
        some { filesChanged := digitsToNat 0 ds, insertions := ins, deletions := del }

/-- `String.prototype.match`: the first position (leftmost) where the pattern
matches. -/
def searchCommitSize : List Char → Option CommitSize
  | [] => matchCommitSizeAt []
  | c :: rest =>
    match matchCommitSizeAt (c :: rest) with
    | some m => some m
    | none => searchCommitSize rest

/-- The list of parsed summary lines: keep lines containing
`"files changed"` or `"file changed"`, run the pattern match on each, drop
the lines where it fails (`filter(Boolean)`). -/
def commitSizesOf : Option String → List CommitSize
  | none => []
  | some out =>
    ((splitOnChar '\n' out.data).filter fun line =>
        jsIncludes "files changed".data line || jsIncludes "file changed".data line
      ).filterMap fun line => searchCommitSize line

/-- A JavaScript value that is either the number `0` (the guarded default)
or a `toFixed(2)` string. -/
inductive JsVal where
  | int : Nat → JsVal
  | str : String → JsVal
deriving Repr, DecidableEq

/-- `(num / den).toFixed(2)`, modelled as exact rational rounding (round
half up) to two decimal places. -/
def toFixed2 (num den : Nat) : String :=
  let scaled := (num * 200 + den) / (2 * den)
  ⟨Nat.toDigits 10 (scaled / 100) ++ '.' :: padNat 2 (scaled % 100)⟩

/-- The record returned by `getCommitSizeStats`. -/
structure CommitSizeStats where
  avgFilesChanged : JsVal
  avgInsertions : JsVal
  avgDeletions : JsVal
deriving Repr, DecidableEq

/-- The zero record `{ avgFilesChanged: 0, avgInsertions: 0, avgDeletions: 0 }`. -/
def zeroCommitSizeStats : CommitSizeStats :=
  { avgFilesChanged := JsVal.int 0
    avgInsertions := JsVal.int 0
    avgDeletions := JsVal.int 0 }

/-- `getCommitSizeStats`: a falsy output or an empty list of matched summary
lines yields the zero record before any division happens; otherwise each
average is `sum / count` rendered with `toFixed(2)`. -/
def getCommitSizeStats (output : Option String) : CommitSizeStats :=
  match output with
  | none => zeroCommitSizeStats
  | some out =>
    if out = "" then zeroCommitSizeStats
    else
      let commitSizes := commitSizesOf (some out)
      if commitSizes.length = 0 then zeroCommitSizeStats
      else
        { avgFilesChanged :=
            JsVal.str (toFixed2 (commitSizes.map CommitSize.filesChanged).sum commitSizes.length)
          avgInsertions :=
            JsVal.str (toFixed2 (commitSizes.map CommitSize.insertions).sum commitSizes.length)
          avgDeletions :=
            JsVal.str (toFixed2 (commitSizes.map CommitSize.deletions).sum commitSizes.length) }

/-! ## `getLanguageStats` -/

/-- `getFileExtension` (`src/utils.js`): the regex `\.([^.]+)$` captures the
non-empty run after the last dot, lowercased; no match yields `""`. -/
def getFileExtension (filePath : String) : String :=
  let parts := splitOnChar '.' filePath.data
  match parts with
  | [] => ""
  | [_] => ""
  | _ :: _ :: _ =>
    let lastPart := parts.getLast!
    if lastPart = [] then "" else ⟨lastPart.map Char.toLower⟩

/-- The fixed extension → language lookup table of `extensionToLanguage`. -/
def languageMap : List (String × String) :=
  [("js", "JavaScript"), ("jsx", "JavaScript"), ("ts", "TypeScript"),
   ("tsx", "TypeScript"), ("py", "Python"), ("java", "Java"), ("cpp", "C++"),
   ("c", "C"), ("h", "C/C++ Header"), ("hpp", "C++ Header"), ("cs", "C#"),
   ("rb", "Ruby"), ("go", "Go"), ("rs", "Rust"), ("php", "PHP"),
   ("swift", "Swift"), ("kt", "Kotlin"), ("scala", "Scala"), ("html", "HTML"),
   ("css", "CSS"), ("scss", "SCSS"), ("sass", "Sass"), ("less", "Less"),
   ("vue", "Vue"), ("svelte", "Svelte"), ("json", "JSON"), ("xml", "XML"),
   ("yaml", "YAML"), ("yml", "YAML"), ("md", "Markdown"), ("sql", "SQL"),
   ("sh", "Shell"), ("bash", "Bash"), ("zsh", "Zsh"), ("fish", "Fish"),
   ("r", "R"), ("m", "Objective-C"), ("mm", "Objective-C++"), ("dart", "Dart"),
   ("lua", "Lua"), ("pl", "Perl"), ("ex", "Elixir"), ("exs", "Elixir"),
   ("erl", "Erlang"), ("clj", "Clojure"), ("elm", "Elm"), ("hs", "Haskell"),
   ("ml", "OCaml"), ("vb", "Visual Basic")]

/-- `extensionToLanguage`: table lookup with uppercased-extension fallback. -/
def extensionToLanguage (ext : String) : String :=
  match languageMap.lookup ext with
  | some language => language
  | none => ⟨ext.data.map Char.toUpper⟩

/-- One step of building the `languageStats` object:
`languageStats[language] = (languageStats[language] || 0) + 1`, preserving
JavaScript property insertion order. -/
def bumpCount (acc : List (String × Nat)) (key : String) : List (String × Nat) :=
  match acc with
  | [] => [(key, 1)]
  | (k, v) :: rest => if k = key then (k, v + 1) :: rest else (k, v) :: bumpCount rest key

/-- The per-file accumulation loop of `getLanguageStats`: files whose
`getFileExtension` is empty (falsy) are skipped. -/
def languageCounts (files : List String) : List (String × Nat) :=
  files.foldl
    (fun acc file =>
      let ext := getFileExtension file
      if ext ≠ "" then bumpCount acc (extensionToLanguage ext) else acc)
    []

/-- The record returned by `getLanguageStats`. -/
structure LanguageStats where
  languages : List (String × Nat)
  totalFiles : Nat
deriving Repr, DecidableEq

/-- `getLanguageStats`: `files` is `git ls-files` output split on newlines
(no blank-line filtering); `languages` is the per-language count list sorted
descending by count (`(a, b) => b.count - a.count`, a stable sort);
`totalFiles` is the raw line count. -/
def getLanguageStats (output : Option String) : LanguageStats :=
  match output with
  | none => { languages := [], totalFiles := 0 }
  | some out =>
    if out = "" then { languages := [], totalFiles := 0 }
    else
      let files := jsSplit '\n' out
      { languages := (languageCounts files).insertionSort (fun a b => b.2 ≤ a.2)
        totalFiles := files.length }

/-! ## Claims -/

/-- **C2** (settled as a code bug).  The specification says the duration
units are nested remainders in fixed order, with 90 days rendering as
`"3 months"`.  The source instead takes each remainder of `totalMillis`
itself by the size of the next-larger unit (`totalMillis % month` for weeks,
`totalMillis % week` for days), which is not the nested remainder because
a month (30 d) does not divide a year (365 d) and a week (7 d) does not
divide a month.  At exactly 90 days (7 776 000 000 ms) the code renders
`"3 months, 6 days"` — 96 days by its own unit sizes — while the nested
decomposition is 3 months exactly. -/
theorem formatDuration_ninety_days_eval :
    formatDuration 0 7776000000 = "3 months, 6 days" ∧
    codeUnits 7776000000 = [0, 3, 0, 6, 0, 0, 0] ∧
    specNestedUnits 7776000000 = [0, 3, 0, 0, 0, 0, 0] := by
  refine ⟨?_, ?_, ?_⟩ <;> rfl

/-- **C6** (confirmed).  For every date `d`, `formatDuration d d` returns
`"0 seconds"`: the zero span makes every component zero, the joined part
list is the empty string, and the `|| "0 seconds"` fallback fires. -/
theorem formatDuration_self_eq_zero_seconds (d : Int) :
    formatDuration d d = "0 seconds" := by
  unfold formatDuration
  rw [sub_self]
  rfl

/-- **C5**, counterexample.  The claim says that in verbose mode a command
failure is re-raised instead of returned as the sentinel.  In the source the
`catch` block only logs when `verbose` is set and then executes
`return null` unconditionally, so even with `verbose = true` a subprocess
failure produces the `null` sentinel and no exception escapes. -/
theorem execCommand_verbose_still_returns_null :
    execCommand none true = ExecResult.returned none ∧
    execCommand none true ≠ ExecResult.raised := by
  exact ⟨rfl, by decide⟩

/-- **C5**, amended.  The command runner returns the `null` sentinel when
the subprocess fails or its trimmed output is empty, in every mode: the
`verbose` flag only adds diagnostic printing and never changes the result,
and the failure is never re-raised. -/
theorem execCommand_sentinel_on_failure (raw : Option String) (verbose : Bool)
    (h : raw = none ∨ ∃ s, raw = some s ∧ jsTrim s = "") :
    execCommand raw verbose = ExecResult.returned none ∧
    execCommand raw verbose ≠ ExecResult.raised := by
  rcases h with rfl | ⟨s, rfl, hs⟩
  · exact ⟨rfl, by simp [execCommand]⟩
  · exact ⟨by simp [execCommand, hs], by simp [execCommand, hs]⟩

/-- Witness for `execCommand_sentinel_on_failure` at a concrete failing
input (`raw = none`, `verbose = true`). -/
theorem execCommand_sentinel_on_failure_witness :
    execCommand none true = ExecResult.returned none ∧
    execCommand none true ≠ ExecResult.raised :=
  execCommand_sentinel_on_failure none true (Or.inl rfl)

/-- **C1** (confirmed).  On the distinct-day output
`2024-01-01, 2024-01-02, 2024-01-03, 2024-01-10` (day numbers
19723, 19724, 19725, 19732), the longest streak is 3 running from
`2024-01-01` to `2024-01-03`, there are 4 active days with no milestones,
and whenever "today" is more than one calendar day after `2024-01-10`
(`today - 19732 > 1`) the current streak is 0. -/
theorem getStreakStats_four_day_example (today : Int) (h : 1 < today - 19732) :
    getStreakStats (some "2024-01-01\n2024-01-02\n2024-01-03\n2024-01-10") today =
    { currentStreak := 0
      longestStreak := 3
      longestStreakStart := some "2024-01-01"
      longestStreakEnd := some "2024-01-03"
      totalActiveDays := 4
      streakMilestones := [] } := by
  have step :
      getStreakStats (some "2024-01-01\n2024-01-02\n2024-01-03\n2024-01-10") today =
      { currentStreak := if today - 19732 ≤ 1 then 1 else 0
        longestStreak := 3
        longestStreakStart := some "2024-01-01"
        longestStreakEnd := some "2024-01-03"
        totalActiveDays := 4
        streakMilestones := [] } := rfl
  rw [step, if_neg (by omega)]

/-- Witness for `getStreakStats_four_day_example` at the concrete
`today = 19734` (`2024-01-12`, two days after the last commit). -/
theorem getStreakStats_four_day_example_witness :
    1 < (19734 : Int) - 19732 ∧
    getStreakStats (some "2024-01-01\n2024-01-02\n2024-01-03\n2024-01-10") 19734 =
    { currentStreak := 0
      longestStreak := 3
      longestStreakStart := some "2024-01-01"
      longestStreakEnd := some "2024-01-03"
      totalActiveDays := 4
      streakMilestones := [] } :=
  ⟨by norm_num, getStreakStats_four_day_example 19734 (by norm_num)⟩

/-- The milestone threshold ladder, in source order. -/
def streakLadder : List (Nat × String) :=
  [(7, "Week Warrior"), (30, "Month Master"), (100, "Century Club"), (365, "Year Legend")]

/-- In every branch of `streakFromSorted` the milestone field is computed
from the returned `longestStreak` by `streakMilestones`. -/
theorem streakFromSorted_milestones (l : List Int) (today : Int) :
    (streakFromSorted l today).streakMilestones
      = streakMilestones (streakFromSorted l today).longestStreak := by
  cases l with
  | nil => rfl
  | cons d0 rest => rfl

/-- **C3** (confirmed).  The milestone list of every `getStreakStats` result
is `streakMilestones` of its `longestStreak`, `streakMilestones` is exactly
the prefix of the fixed threshold ladder whose thresholds are satisfied, and
`longestStreak = 45` yields exactly `["Week Warrior", "Month Master"]`. -/
theorem getStreakStats_milestones_prefix :
    (∀ (output : Option String) (today : Int),
      (getStreakStats output today).streakMilestones
        = streakMilestones (getStreakStats output today).longestStreak) ∧
    (∀ n : Nat,
      streakMilestones n = (streakLadder.takeWhile fun p => p.1 ≤ n).map Prod.snd) ∧
    streakMilestones 45 = ["Week Warrior", "Month Master"] := by
  refine ⟨?_, ?_, by decide⟩
  · intro output today
    cases output with
    | none => rfl
    | some s =>
      by_cases hs : s = ""
      · simp only [getStreakStats, if_pos hs]
        rfl
      · simp only [getStreakStats, if_neg hs]
        exact streakFromSorted_milestones _ _
  · intro n
    by_cases h7 : 7 ≤ n <;> by_cases h30 : 30 ≤ n <;>
      by_cases h100 : 100 ≤ n <;> by_cases h365 : 365 ≤ n <;>
      first
        | (exfalso; omega)
        | simp [streakMilestones, streakLadder, h7, h30, h100, h365]

/-- Invariant of the forward scan: both the best-so-far streak and the
running streak stay at least 1. -/
theorem longestScan_ge_one (l : List Int) :
    ∀ (p : Int) (st : LongestState), 1 ≤ st.longestStreak → 1 ≤ st.tempStreak →
      1 ≤ (longestScan p st l).longestStreak ∧ 1 ≤ (longestScan p st l).tempStreak := by
  induction l with
  | nil => exact fun p st h1 h2 => ⟨h1, h2⟩
  | cons c rest ih =>
    intro p st h1 h2
    simp only [longestScan]
    split
    · exact ih c _ h1 (by simp)
    · split
      · exact ih c st h1 h2
      · refine ih c _ ?_ ?_
        · dsimp only
          split <;> omega
        · exact le_refl 1

/-- **C4** (confirmed).  Whenever the parsed commit-day list is non-empty,
`getStreakStats` returns `longestStreak ≥ 1`; when it is empty (the
zero-commit case), the whole record is the all-zero record with an empty
milestone list and `null` start/end dates, so `longestStreak = 0` happens
only there. -/
theorem getStreakStats_longest_pos (output : Option String) (today : Int) :
    (parsedDates output ≠ [] → 1 ≤ (getStreakStats output today).longestStreak) ∧
    (parsedDates output = [] → getStreakStats output today = emptyStreakStats) := by
  constructor
  · intro hne
    cases output with
    | none => exact absurd rfl hne
    | some s =>
      by_cases hs : s = ""
      · exact absurd (by rw [hs]; rfl) hne
      · have hl : parsedDates (some s) = sortedDatesOf s := rfl
        rw [hl] at hne
        obtain ⟨d0, rest, hds⟩ : ∃ d0 rest, sortedDatesOf s = d0 :: rest := by
          cases hq : sortedDatesOf s with
          | nil => exact absurd hq hne
          | cons a b => exact ⟨a, b, rfl⟩
        have hred : getStreakStats (some s) today = streakFromSorted (d0 :: rest) today := by
          simp only [getStreakStats, if_neg hs, hds]
        rw [hred]
        have hproj : (streakFromSorted (d0 :: rest) today).longestStreak =
            (if (longestScan d0
                  { longestStreak := 1, longestStreakStart := d0, longestStreakEnd := d0,
                    tempStreak := 1, tempStreakStart := d0 } rest).tempStreak >
                (longestScan d0
                  { longestStreak := 1, longestStreakStart := d0, longestStreakEnd := d0,
                    tempStreak := 1, tempStreakStart := d0 } rest).longestStreak
             then (longestScan d0
                  { longestStreak := 1, longestStreakStart := d0, longestStreakEnd := d0,
                    tempStreak := 1, tempStreakStart := d0 } rest).tempStreak
             else (longestScan d0
                  { longestStreak := 1, longestStreakStart := d0, longestStreakEnd := d0,
                    tempStreak := 1, tempStreakStart := d0 } rest).longestStreak) := rfl
        rw [hproj]
        have hin := longestScan_ge_one rest d0
          { longestStreak := 1, longestStreakStart := d0, longestStreakEnd := d0,
            tempStreak := 1, tempStreakStart := d0 } (le_refl 1) (le_refl 1)
        split
        · exact hin.2
        · exact hin.1
  · intro he
    cases output with
    | none => rfl
    | some s =>
      by_cases hs : s = ""
      · simp only [getStreakStats, if_pos hs]
      · have he' : sortedDatesOf s = [] := he
        simp only [getStreakStats, if_neg hs, he']
        rfl

/-- Witness for `getStreakStats_longest_pos`: a single active day
(`2024-01-05`) gives `longestStreak ≥ 1`, and a failed command gives the
all-zero record. -/
theorem getStreakStats_longest_pos_witness :
    parsedDates (some "2024-01-05") ≠ [] ∧
    1 ≤ (getStreakStats (some "2024-01-05") 0).longestStreak ∧
    parsedDates none = [] ∧
    getStreakStats none 0 = emptyStreakStats :=
  ⟨by decide,
   (getStreakStats_longest_pos (some "2024-01-05") 0).1 (by decide),
   rfl,
   (getStreakStats_longest_pos none 0).2 rfl⟩

/-- **C7** (confirmed).  When no commit-summary line matches — including
when the underlying command output is missing — `getCommitSizeStats`
returns the all-zero record.  The guard fires before any average is formed,
so no division by a zero count is ever performed (the `toFixed` branch is
reached only with a positive `commitSizes.length`). -/
theorem getCommitSizeStats_zero_matches (output : Option String)
    (h : commitSizesOf output = []) :
    getCommitSizeStats output = zeroCommitSizeStats := by
  cases output with
  | none => rfl
  | some s =>
    by_cases hs : s = ""
    · simp only [getCommitSizeStats, if_pos hs]
    · have hlen : (commitSizesOf (some s)).length = 0 := by rw [h]; rfl
      simp only [getCommitSizeStats, if_neg hs, hlen, if_pos]

/-- Witness for `getCommitSizeStats_zero_matches`: a missing output and an
output with no matching summary line both yield the zero record. -/
theorem getCommitSizeStats_zero_matches_witness :
    commitSizesOf none = [] ∧
    getCommitSizeStats none = zeroCommitSizeStats ∧
    commitSizesOf (some "abc123 fix typo\nanother line") = [] ∧
    getCommitSizeStats (some "abc123 fix typo\nanother line") = zeroCommitSizeStats :=
  ⟨rfl, getCommitSizeStats_zero_matches none rfl, by decide,
   getCommitSizeStats_zero_matches (some "abc123 fix typo\nanother line") (by decide)⟩

/-- `split` never returns an empty field list. -/
theorem splitOnChar_ne_nil (sep : Char) (l : List Char) : splitOnChar sep l ≠ [] := by
  cases l with
  | nil => simp [splitOnChar]
  | cons c rest =>
    simp only [splitOnChar]
    split
    · simp
    · cases h : splitOnChar sep rest <;> simp

/-- `join(sep)` is a left inverse of `split(sep)`. -/
theorem joinChars_splitOnChar (sep : Char) (l : List Char) :
    joinChars [sep] (splitOnChar sep l) = l := by
  induction l with
  | nil => rfl
  | cons c rest ih =>
    simp only [splitOnChar]
    by_cases hc : c = sep
    · rw [if_pos hc]
      cases h : splitOnChar sep rest with
      | nil => exact absurd h (splitOnChar_ne_nil sep rest)
      | cons g gs =>
        rw [h] at ih
        simp only [joinChars]
        subst hc
        simpa using ih
    · rw [if_neg hc]
      cases h : splitOnChar sep rest with
      | nil => exact absurd h (splitOnChar_ne_nil sep rest)
      | cons g gs =>
        rw [h] at ih
        cases gs with
        | nil =>
          simp only [joinChars] at ih ⊢
          rw [ih]
        | cons g2 gs2 =>
          simp only [joinChars] at ih ⊢
          simp [← ih]

/-- **C8** (confirmed).  `parseContributorLine` treats the first
tab-separated field of the trimmed line as the commit count and rejoins all
remaining fields with the separator into the name, so a name containing a
tab is preserved in full: count field + tab + parsed name reassemble the
whole trimmed line, and nothing is truncated at the first separator. -/
theorem parseContributorLine_rejoins_name (line : String) (c : List Char)
    (rest : List (List Char))
    (h : splitOnChar '\t' (trimChars line.data) = c :: rest) (hne : rest ≠ []) :
    (parseContributorLine line).commits = jsParseInt c ∧
    c ++ '\t' :: (parseContributorLine line).name.data = trimChars line.data := by
  have hparse : parseContributorLine line =
      { name := ⟨joinChars ['\t'] rest⟩, commits := jsParseInt c } := by
    simp only [parseContributorLine, h]
  rw [hparse]
  refine ⟨rfl, ?_⟩
  have hjoin : c ++ '\t' :: joinChars ['\t'] rest = joinChars ['\t'] (c :: rest) := by
    cases rest with
    | nil => exact absurd rfl hne
    | cons y ys => simp [joinChars]
  calc c ++ '\t' :: (String.mk (joinChars ['\t'] rest)).data
      = joinChars ['\t'] (c :: rest) := hjoin
    _ = joinChars ['\t'] (splitOnChar '\t' (trimChars line.data)) := by rw [h]
    _ = trimChars line.data := joinChars_splitOnChar '\t' (trimChars line.data)

/-- Witness for `parseContributorLine_rejoins_name` on the shortlog line
`"  12\tTeam\tAwesome"`, whose contributor name itself contains a tab. -/
theorem parseContributorLine_rejoins_name_witness :
    splitOnChar '\t' (trimChars "  12\tTeam\tAwesome".data)
        = "12".data :: ["Team".data, "Awesome".data] ∧
    (["Team".data, "Awesome".data] : List (List Char)) ≠ [] ∧
    (parseContributorLine "  12\tTeam\tAwesome").commits = jsParseInt "12".data ∧
    "12".data ++ '\t' :: (parseContributorLine "  12\tTeam\tAwesome").name.data
        = trimChars "  12\tTeam\tAwesome".data :=
  ⟨by decide, by decide,
   (parseContributorLine_rejoins_name "  12\tTeam\tAwesome" "12".data
      ["Team".data, "Awesome".data] (by decide) (by decide)).1,
   (parseContributorLine_rejoins_name "  12\tTeam\tAwesome" "12".data
      ["Team".data, "Awesome".data] (by decide) (by decide)).2⟩

/-- The tracked-file list `getLanguageStats` iterates over (`git ls-files`
output split on newlines; a falsy output yields no files). -/
def filesOf : Option String → List String
  | none => []
  | some out => if out = "" then [] else jsSplit '\n' out

/-- Bumping one key adds exactly one to the total of the counter object. -/
theorem bumpCount_sum (acc : List (String × Nat)) (key : String) :
    ((bumpCount acc key).map Prod.snd).sum = ((acc.map Prod.snd).sum) + 1 := by
  induction acc with
  | nil => rfl
  | cons kv rest ih =>
    simp only [bumpCount]
    split
    · simp only [List.map_cons, List.sum_cons]
      omega
    · simp only [List.map_cons, List.sum_cons, ih]
      omega

/-- The total of the language counter, started from any accumulator, grows
by the number of files whose extension is non-empty. -/
theorem languageCounts_sum_aux (files : List String) :
    ∀ acc : List (String × Nat),
      (((files.foldl
          (fun acc file =>
            let ext := getFileExtension file
            if ext ≠ "" then bumpCount acc (extensionToLanguage ext) else acc)
          acc)).map Prod.snd).sum
        = ((acc.map Prod.snd).sum)
          + ((files.filter fun f => getFileExtension f ≠ "").length) := by
  induction files with
  | nil => intro acc; simp
  | cons f rest ih =>
    intro acc
    rw [List.foldl_cons]
    by_cases hf : getFileExtension f = ""
    · have hstep : (let ext := getFileExtension f
          if ext ≠ "" then bumpCount acc (extensionToLanguage ext) else acc) = acc := by
        simp [hf]
      rw [hstep, ih, List.filter_cons]
      simp [hf]
    · have hstep : (let ext := getFileExtension f
          if ext ≠ "" then bumpCount acc (extensionToLanguage ext) else acc)
          = bumpCount acc (extensionToLanguage (getFileExtension f)) := by
        simp [hf]
      rw [hstep, ih, bumpCount_sum, List.filter_cons]
      simp [hf]
      omega

/-- The total of the language counter equals the number of files whose
extension is non-empty. -/
theorem languageCounts_sum (files : List String) :
    ((languageCounts files).map Prod.snd).sum
      = ((files.filter fun f => getFileExtension f ≠ "").length) := by
  have h := languageCounts_sum_aux files []
  simpa [languageCounts] using h

/-- **C10** (confirmed).  `totalFiles` counts every tracked file, while a
file whose path has no extension (`getFileExtension` returns `""`)
contributes to no language bucket: the per-language counts of
`getLanguageStats` sum to the number of files with a non-empty extension,
which is at most `totalFiles` (and strictly below it when extension-less
files exist, which is why percentages computed against `totalFiles` need
not sum to 100). -/
theorem getLanguageStats_counts_bounded (output : Option String) :
    (((getLanguageStats output).languages.map Prod.snd).sum
        = ((filesOf output).filter fun f => getFileExtension f ≠ "").length) ∧
    ((getLanguageStats output).languages.map Prod.snd).sum
        ≤ (getLanguageStats output).totalFiles := by
  have key : ((getLanguageStats output).languages.map Prod.snd).sum
      = ((filesOf output).filter fun f => getFileExtension f ≠ "").length := by
    cases output with
    | none => rfl
    | some s =>
      by_cases hs : s = ""
      · simp only [getLanguageStats, filesOf, if_pos hs]
        rfl
      · simp only [getLanguageStats, filesOf, if_neg hs]
        have hperm :
            ((languageCounts (jsSplit '\n' s)).insertionSort (fun a b => b.2 ≤ a.2)).Perm
              (languageCounts (jsSplit '\n' s)) :=
          List.perm_insertionSort _ _
        rw [(hperm.map Prod.snd).sum_eq]
        exact languageCounts_sum (jsSplit '\n' s)
  refine ⟨key, ?_⟩
  rw [key]
  have hle : ((filesOf output).filter fun f => getFileExtension f ≠ "").length
      ≤ (filesOf output).length := List.length_filter_le _ _
  have htot : (getLanguageStats output).totalFiles = (filesOf output).length := by
    cases output with
    | none => rfl
    | some s =>
      by_cases hs : s = ""
      · simp [getLanguageStats, filesOf, if_pos hs]
      · simp [getLanguageStats, filesOf, if_neg hs]
  rw [htot]
  exact hle

/-- The `(prevDate, tempStreak)` fragment of the forward scan's state
transition, in isolation. -/
def runPT (prevDate : Int) (tempStreak : Nat) : List Int → Int × Nat
  | [] => (prevDate, tempStreak)
  | currDate :: rest =>
    if currDate - prevDate = 1 then runPT currDate (tempStreak + 1) rest
    else if currDate - prevDate = 0 then runPT currDate tempStreak rest
    else runPT currDate 1 rest

/-- The running-streak component of the forward scan is computed by
`runPT`. -/
theorem longestScan_tempStreak (l : List Int) :
    ∀ (p : Int) (st : LongestState),
      (longestScan p st l).tempStreak = (runPT p st.tempStreak l).2 := by
  induction l with
  | nil => intro p st; rfl
  | cons c rest ih =>
    intro p st
    simp only [longestScan, runPT]
    split
    · exact ih c _
    · split
      · exact ih c st
      · exact ih c _

/-- `runPT` always ends positioned on the last element scanned. -/
theorem runPT_fst (l : List Int) :
    ∀ (p : Int) (t : Nat), (runPT p t l).1 = (p :: l).getLast (List.cons_ne_nil p l) := by
  induction l with
  | nil => intro p t; rfl
  | cons c rest ih =>
    intro p t
    simp only [runPT]
    split
    · rw [ih]
      exact (List.getLast_cons (List.cons_ne_nil c rest)).symm
    · split
      · rw [ih]
        exact (List.getLast_cons (List.cons_ne_nil c rest)).symm
      · rw [ih]
        exact (List.getLast_cons (List.cons_ne_nil c rest)).symm

/-- `runPT` over an appended list runs the two pieces in sequence. -/
theorem runPT_append (l1 l2 : List Int) :
    ∀ (p : Int) (t : Nat),
      runPT p t (l1 ++ l2) = runPT (runPT p t l1).1 (runPT p t l1).2 l2 := by
  induction l1 with
  | nil => intro p t; rfl
  | cons c rest ih =>
    intro p t
    simp only [List.cons_append, runPT]
    split
    · exact ih _ _
    · split
      · exact ih _ _
      · exact ih _ _

/-- On a sorted day list, the backward current-streak walk measures exactly
the trailing run that `runPT` (the running-streak component of the forward
scan) holds when the scan ends: with starting accumulator `k` the walk
returns the final `tempStreak` plus `k - 1`. -/
theorem currentScan_eq_runPT (l : List Int) :
    ∀ d0 : Int, (d0 :: l).Sorted (· ≤ ·) → ∀ k : Nat,
      currentScan ((d0 :: l).getLast (List.cons_ne_nil d0 l)) k ((d0 :: l).dropLast.reverse)
        = (runPT d0 1 l).2 + k - 1 := by
  induction l using List.reverseRecOn with
  | nil =>
    intro d0 _ k
    simp [currentScan, runPT]
  | append_singleton l' a ih =>
    intro d0 hsorted k
    have hlast : ((d0 :: (l' ++ [a])).getLast (List.cons_ne_nil d0 (l' ++ [a]))) = a :=
      List.getLast_concat (d0 :: l')
    have hdrop : (d0 :: (l' ++ [a])).dropLast = d0 :: l' := by
      rw [show d0 :: (l' ++ [a]) = (d0 :: l') ++ [a] from rfl, List.dropLast_concat]
    rw [hlast, hdrop]
    have hrev : (d0 :: l').reverse
        = (d0 :: l').getLast (List.cons_ne_nil d0 l') :: (d0 :: l').dropLast.reverse := by
      conv_lhs => rw [← List.dropLast_append_getLast (List.cons_ne_nil d0 l')]
      rw [List.reverse_append]
      rfl
    rw [hrev]
    have hsorted' : (d0 :: l').Sorted (· ≤ ·) :=
      List.Pairwise.sublist (List.cons_sublist_cons.mpr (List.sublist_append_left _ _)) hsorted
    have hp'a : (d0 :: l').getLast (List.cons_ne_nil d0 l') ≤ a := by
      have hpw : List.Pairwise (· ≤ ·) ((d0 :: l') ++ [a]) := hsorted
      exact (List.pairwise_append.mp hpw).2.2 _ (List.getLast_mem _) a (by simp)
    have happ : runPT d0 1 (l' ++ [a])
        = runPT ((d0 :: l').getLast (List.cons_ne_nil d0 l')) (runPT d0 1 l').2 [a] := by
      rw [runPT_append, runPT_fst]
    by_cases h1 : a - (d0 :: l').getLast (List.cons_ne_nil d0 l') = 1
    · rw [show currentScan a k
            ((d0 :: l').getLast (List.cons_ne_nil d0 l') :: (d0 :: l').dropLast.reverse)
          = currentScan ((d0 :: l').getLast (List.cons_ne_nil d0 l')) (k + 1)
            ((d0 :: l').dropLast.reverse) from by
        simp only [currentScan]; rw [if_pos h1]]
      rw [ih d0 hsorted' (k + 1), happ]
      simp only [runPT, if_pos h1]
      omega
    · by_cases h0 : a - (d0 :: l').getLast (List.cons_ne_nil d0 l') = 0
      · have ha : a = (d0 :: l').getLast (List.cons_ne_nil d0 l') := by omega
        rw [show currentScan a k
              ((d0 :: l').getLast (List.cons_ne_nil d0 l') :: (d0 :: l').dropLast.reverse)
            = currentScan a k ((d0 :: l').dropLast.reverse) from by
          simp only [currentScan]; rw [if_neg h1, if_neg (by omega)]]
        conv_lhs => rw [ha]
        rw [ih d0 hsorted' k, happ]
        simp [runPT, h1, h0]
      · have h2 : a - (d0 :: l').getLast (List.cons_ne_nil d0 l') > 1 := by omega
        rw [show currentScan a k
              ((d0 :: l').getLast (List.cons_ne_nil d0 l') :: (d0 :: l').dropLast.reverse)
            = k from by
          simp only [currentScan]; rw [if_neg h1, if_pos h2]]
        rw [happ]
        simp only [runPT, if_neg h1, if_neg h0]
        omega

/-- On a sorted non-empty day list the current streak never exceeds the
longest streak: the backward walk measures the trailing run, which the
final close-and-compare of the forward scan always counts. -/
theorem streakFromSorted_current_le_longest (d0 : Int) (rest : List Int) (today : Int)
    (hsorted : (d0 :: rest).Sorted (· ≤ ·)) :
    (streakFromSorted (d0 :: rest) today).currentStreak
      ≤ (streakFromSorted (d0 :: rest) today).longestStreak := by
  have hcur : (streakFromSorted (d0 :: rest) today).currentStreak
      = if today - (d0 :: rest).getLast (List.cons_ne_nil d0 rest) ≤ 1 then
          currentScan ((d0 :: rest).getLast (List.cons_ne_nil d0 rest)) 1
            ((d0 :: rest).dropLast.reverse)
        else 0 := rfl
  have hlong : (streakFromSorted (d0 :: rest) today).longestStreak
      = if (longestScan d0
            { longestStreak := 1, longestStreakStart := d0, longestStreakEnd := d0,
              tempStreak := 1, tempStreakStart := d0 } rest).tempStreak >
          (longestScan d0
            { longestStreak := 1, longestStreakStart := d0, longestStreakEnd := d0,
              tempStreak := 1, tempStreakStart := d0 } rest).longestStreak
        then (longestScan d0
            { longestStreak := 1, longestStreakStart := d0, longestStreakEnd := d0,
              tempStreak := 1, tempStreakStart := d0 } rest).tempStreak
        else (longestScan d0
            { longestStreak := 1, longestStreakStart := d0, longestStreakEnd := d0,
              tempStreak := 1, tempStreakStart := d0 } rest).longestStreak := rfl
  rw [hcur, hlong]
  by_cases hc : today - (d0 :: rest).getLast (List.cons_ne_nil d0 rest) ≤ 1
  · rw [if_pos hc]
    have hwalk : currentScan ((d0 :: rest).getLast (List.cons_ne_nil d0 rest)) 1
        ((d0 :: rest).dropLast.reverse) = (runPT d0 1 rest).2 := by
      have h := currentScan_eq_runPT rest d0 hsorted 1
      simpa using h
    rw [hwalk]
    have htemp : (longestScan d0
        { longestStreak := 1, longestStreakStart := d0, longestStreakEnd := d0,
          tempStreak := 1, tempStreakStart := d0 } rest).tempStreak = (runPT d0 1 rest).2 :=
      longestScan_tempStreak rest d0 _
    rw [← htemp]
    by_cases hgt : (longestScan d0
        { longestStreak := 1, longestStreakStart := d0, longestStreakEnd := d0,
          tempStreak := 1, tempStreakStart := d0 } rest).tempStreak >
        (longestScan d0
        { longestStreak := 1, longestStreakStart := d0, longestStreakEnd := d0,
          tempStreak := 1, tempStreakStart := d0 } rest).longestStreak
    · rw [if_pos hgt]
    · rw [if_neg hgt]
      omega
  · rw [if_neg hc]
    exact Nat.zero_le _

/-- **C9** (confirmed).  For every input with at least one parsed commit
day, the record returned by `getStreakStats` satisfies
`currentStreak ≤ longestStreak`: the forward scan's final close-and-compare
counts the trailing run that the backward current-streak walk measures. -/
theorem getStreakStats_current_le_longest (output : Option String) (today : Int)
    (h : parsedDates output ≠ []) :
    (getStreakStats output today).currentStreak
      ≤ (getStreakStats output today).longestStreak := by
  cases output with
  | none => exact absurd rfl h
  | some s =>
    by_cases hs : s = ""
    · exact absurd (by rw [hs]; rfl) h
    · have hl : parsedDates (some s) = sortedDatesOf s := rfl
      rw [hl] at h
      obtain ⟨d0, rest, hds⟩ : ∃ d0 rest, sortedDatesOf s = d0 :: rest := by
        cases hq : sortedDatesOf s with
        | nil => exact absurd hq h
        | cons a b => exact ⟨a, b, rfl⟩
      have hsorted : (d0 :: rest).Sorted (· ≤ ·) := by
        rw [← hds]
        exact List.sorted_insertionSort _ _
      have hred : getStreakStats (some s) today = streakFromSorted (d0 :: rest) today := by
        simp only [getStreakStats, if_neg hs, hds]
      rw [hred]
      exact streakFromSorted_current_le_longest d0 rest today hsorted

/-- Witness for `getStreakStats_current_le_longest` on a two-day history
ending `2024-01-06` with `today` the same day. -/
theorem getStreakStats_current_le_longest_witness :
    parsedDates (some "2024-01-05\n2024-01-06") ≠ [] ∧
    (getStreakStats (some "2024-01-05\n2024-01-06") 19729).currentStreak
      ≤ (getStreakStats (some "2024-01-05\n2024-01-06") 19729).longestStreak :=
  ⟨by decide, getStreakStats_current_le_longest (some "2024-01-05\n2024-01-06") 19729 (by decide)⟩
